import Mathlib

/-!
Shallow embedding of the avr-vad voice-activity-detection core
(`SileroVAD` class and `AudioUtils.createFrames`), with proofs of the
behavioural properties stated in the specification.

Numbers (samples, probabilities, timestamps, durations) are modelled as
rationals; JavaScript `Math.sqrt` (an external library function) is passed
in as an abstract function parameter `sqrtFn`, and the opaque ONNX
inference backend as an abstract fallible oracle `model`.
-/

namespace AvrVad

/-- Embedded from `types.ts`: the recognized configuration options
(`modelPath` is omitted, it only matters to model acquisition, which is
out of the verified core). -/
structure VADOptions where
  sampleRate : ℚ
  frameSize : ℕ
  threshold : ℚ
  minSpeechDurationMs : ℚ
  maxSilenceDurationMs : ℚ
  deriving Repr, DecidableEq

/-- Embedded from `types.ts`: the per-session activity state. -/
structure VADState where
  currentFrame : ℕ
  speechActive : Bool
  speechStart : Option ℚ
  silenceDuration : ℚ
  speechDuration : ℚ
  deriving Repr, DecidableEq

/-- Embedded from `types.ts`: the per-frame decision record. -/
structure VADResult where
  probability : ℚ
  isSpeech : Bool
  frame : ℕ
  timestamp : ℚ
  deriving Repr, DecidableEq

/-- Embedded from `types.ts`: an extracted speech segment
(`end` is a Lean keyword, so the field is called `endMs`). -/
structure AudioSegment where
  start : ℚ
  endMs : ℚ
  audioData : List ℚ
  confidence : ℚ
  deriving Repr, DecidableEq

/-- The state a `SileroVAD` instance holds right after construction
(constructor, `silero-vad.ts`). -/
def initState : VADState :=
  { currentFrame := 0, speechActive := false, speechStart := none,
    silenceDuration := 0, speechDuration := 0 }

/-- Embedded from `SileroVAD.validateOptions`: invalid sample rate or
threshold throws; a frame size other than 1536 is overwritten with 1536
(after a console warning). The returned options are the ones the object
keeps. -/
def validateOptions (o : VADOptions) : Except String VADOptions :=
  if ¬ (o.sampleRate = 8000 ∨ o.sampleRate = 16000) then
    .error "Sample rate must be 8000 or 16000 Hz"
  else
    let o' := if o.frameSize ≠ 1536 then { o with frameSize := 1536 } else o
    if o'.threshold < 0 ∨ o'.threshold > 1 then
      .error "Threshold must be between 0 and 1"
    else
      .ok o'

/-- A `SileroVAD` instance: options, activity state, the two LSTM state
buffers `h` and `c`, the fallback flag `useOnnxModel` and whether an ONNX
session is loaded (`session !== null`). -/
structure Session where
  options : VADOptions
  state : VADState
  h : List ℚ
  c : List ℚ
  useOnnxModel : Bool
  hasSession : Bool
  deriving Repr, DecidableEq

/-- Embedded from the `SileroVAD` constructor: initialize state, zero the
LSTM buffers (2·1·128 entries each), then run `validateOptions` (which may
throw, leaving no usable object). `useOnnxModel` starts `true`,
`session` starts `null`. -/
def mkSession (options : VADOptions) : Except String Session :=
  match validateOptions options with
  | .error e => .error e
  | .ok o =>
      .ok { options := o, state := initState,
            h := List.replicate 256 0, c := List.replicate 256 0,
            useOnnxModel := true, hasSession := false }

/-- Frame duration in milliseconds, `(frameSize / sampleRate) * 1000`,
as computed inside `updateState` and for timestamps. -/
def frameDurationMs (o : VADOptions) : ℚ :=
  ((o.frameSize : ℚ) / o.sampleRate) * 1000

/-- Embedded from `SileroVAD.updateState`: the threshold/hysteresis state
machine transition for one frame decision. -/
def updateState (o : VADOptions) (isSpeech : Bool) (timestamp : ℚ)
    (st : VADState) : VADState :=
  if isSpeech then
    let st1 :=
      if ¬ st.speechActive then
        { st with speechActive := true, speechStart := some timestamp,
                  speechDuration := 0 }
      else st
    { st1 with speechDuration := st1.speechDuration + frameDurationMs o,
               silenceDuration := 0 }
  else
    if st.speechActive then
      let st1 := { st with silenceDuration := st.silenceDuration + frameDurationMs o }
      if st1.silenceDuration ≥ o.maxSilenceDurationMs then
        { st1 with speechActive := false, speechStart := none }
      else st1
    else st

/-- Embedded from `SileroVAD.energyBasedVAD`: RMS energy of the frame,
linearly mapped from `[0.001, 0.1]` to `[0,1]` and clamped. `sqrtFn`
models the external `Math.sqrt`. -/
def energyBasedVAD (sqrtFn : ℚ → ℚ) (audioFrame : List ℚ) : ℚ :=
  let sum := (audioFrame.map (fun x => x * x)).sum
  let rms := sqrtFn (sum / (audioFrame.length : ℚ))
  let minEnergy : ℚ := 1 / 1000
  let maxEnergy : ℚ := 1 / 10
  let normalizedEnergy := (rms - minEnergy) / (maxEnergy - minEnergy)
  max 0 (min 1 normalizedEnergy)

/-- The opaque ONNX inference backend: given the audio frame and the
current LSTM state buffer, either fail (`none`, modelling a thrown backend
error) or return the probability and, when the model emits `stateN`, the
new LSTM state buffer. -/
def Model : Type := List ℚ → List ℚ → Option (ℚ × Option (List ℚ))

/-- Embedded from `SileroVAD.processFrame` (the fallback-capable variant):
frame-size check, ONNX inference with permanent energy fallback on the
first backend error, then thresholding and the state-machine update. -/
def processFrame (model : Model) (sqrtFn : ℚ → ℚ) (s : Session)
    (audioFrame : List ℚ) : Except String (VADResult × Session) :=
  if audioFrame.length ≠ s.options.frameSize then
    .error "Audio frame size mismatch"
  else
    let pr : ℚ × Session :=
      if s.useOnnxModel && s.hasSession then
        match model audioFrame s.h with
        | some (p, newState) =>
            (p, { s with h := match newState with | some d => d | none => s.h })
        | none => (energyBasedVAD sqrtFn audioFrame, { s with useOnnxModel := false })
      else
        (energyBasedVAD sqrtFn audioFrame, s)
    let probability := pr.1
    let timestamp : ℚ :=
      (s.state.currentFrame : ℚ) * ((s.options.frameSize : ℚ) / s.options.sampleRate) * 1000
    let isSpeech : Bool := decide (probability ≥ s.options.threshold)
    let st1 := updateState s.options isSpeech timestamp s.state
    let result : VADResult :=
      { probability := probability, isSpeech := isSpeech,
        frame := st1.currentFrame, timestamp := timestamp }
    let s2 := { pr.2 with state := { st1 with currentFrame := st1.currentFrame + 1 } }
    .ok (result, s2)

/-- The chunking loop of `SileroVAD.processAudio`: slices of `frameSize`
samples, the final short slice zero-padded up to `frameSize`. (For
`frameSize = 0` the source loop would not advance; the model returns `[]`,
a case excluded by validation, which forces `frameSize = 1536`.) -/
def chunkAudio (frameSize : ℕ) (audioData : List ℚ) : List (List ℚ) :=
  if h : 0 < frameSize ∧ audioData ≠ [] then
    let chunk := audioData.take frameSize
    let frame :=
      if chunk.length < frameSize then
        chunk ++ List.replicate (frameSize - chunk.length) 0
      else chunk
    frame :: chunkAudio frameSize (audioData.drop frameSize)
  else []
termination_by audioData.length
decreasing_by
  simp only [List.length_drop]
  exact Nat.sub_lt (List.length_pos.mpr h.2) h.1

/-- The sequential per-chunk loop of `SileroVAD.processAudio`: run
`processFrame` on each chunk in order, collecting results. -/
def runFrames (model : Model) (sqrtFn : ℚ → ℚ) :
    List (List ℚ) → Session → Except String (List VADResult × Session)
  | [], s => .ok ([], s)
  | f :: rest, s =>
      match processFrame model sqrtFn s f with
      | .ok (r, s2) =>
          match runFrames model sqrtFn rest s2 with
          | .ok (rs, s3) => .ok (r :: rs, s3)
          | .error e => .error e
      | .error e => .error e

/-- Embedded from `SileroVAD.processAudio`: chunk the whole buffer
(zero-padding the tail) and process every chunk. -/
def processAudio (model : Model) (sqrtFn : ℚ → ℚ) (s : Session)
    (audioData : List ℚ) : Except String (List VADResult × Session) :=
  runFrames model sqrtFn (chunkAudio s.options.frameSize audioData) s

/-- Loop body of `AudioUtils.createFrames`: emit the slice at index `i`
while `i <= length - frameSize` (JavaScript number arithmetic, hence the
integer subtraction), stepping by `hop`. (`hop = 0` would not advance in
the source either; the model returns `[]` there.) -/
def createFramesAux (audioData : List ℚ) (frameSize hop : ℕ) (i : ℕ) :
    List (List ℚ) :=
  if h : 0 < hop ∧ (i : ℤ) ≤ (audioData.length : ℤ) - (frameSize : ℤ) then
    ((audioData.drop i).take frameSize) :: createFramesAux audioData frameSize hop (i + hop)
  else []
termination_by audioData.length + 1 - i
decreasing_by
  obtain ⟨h1, h2⟩ := h
  omega

/-- Embedded from `AudioUtils.createFrames`: split into frames of
`frameSize`, hop defaulting to `frameSize` when absent or `0` (JavaScript
`hopSize || frameSize`); the final partial tail is dropped. -/
def createFrames (audioData : List ℚ) (frameSize : ℕ) (hopSize : Option ℕ) :
    List (List ℚ) :=
  let hop := match hopSize with
    | some k => if k = 0 then frameSize else k
    | none => frameSize
  createFramesAux audioData frameSize hop 0

/-- JavaScript `TypedArray.prototype.slice(a, b)` for non-negative
indices: elements from position `a` up to (excluding) `b`, clamped to the
array length. -/
def jsSlice (l : List ℚ) (a b : ℤ) : List ℚ :=
  (l.take b.toNat).drop a.toNat

/-- The `reduce` computing the probability sum in
`SileroVAD.extractSpeechSegments`: left fold over the collected frame
indices, indexing `vadResults[frame]`; `none` models the TypeError thrown
by an out-of-bounds access (`undefined.probability`). -/
def sumProbs (vadResults : List VADResult) : List ℕ → ℚ → Option ℚ
  | [], acc => some acc
  | f :: rest, acc =>
      match vadResults.get? f with
      | some r => sumProbs vadResults rest (acc + r.probability)
      | none => none

/-- The loop-local accumulator of `SileroVAD.extractSpeechSegments`:
segments pushed so far, `segmentStart`, and the collected member frame
indices `speechFrames`. -/
structure ExtractAcc where
  segments : List AudioSegment
  segmentStart : Option ℚ
  speechFrames : List ℕ
  deriving Repr, DecidableEq

/-- The initial accumulator of `SileroVAD.extractSpeechSegments`. -/
def initAcc : ExtractAcc := { segments := [], segmentStart := none, speechFrames := [] }

/-- One iteration of the `SileroVAD.extractSpeechSegments` loop on
decision `result`. -/
def extractStep (o : VADOptions) (vadResults : List VADResult)
    (audioData : List ℚ) (acc : ExtractAcc) (result : VADResult) :
    Option ExtractAcc :=
  if result.isSpeech then
    some { acc with
      segmentStart :=
        match acc.segmentStart with
        | none => some result.timestamp
        | some t => some t,
      speechFrames := acc.speechFrames ++ [result.frame] }
  else
    match acc.segmentStart with
    | some segmentStart =>
        if acc.speechFrames.length > 0 then
          let segmentEnd := result.timestamp
          let duration := segmentEnd - segmentStart
          if duration ≥ o.minSpeechDurationMs then
            let startSample := ⌊segmentStart / 1000 * o.sampleRate⌋
            let endSample := ⌊segmentEnd / 1000 * o.sampleRate⌋
            match sumProbs vadResults acc.speechFrames 0 with
            | some total =>
                some { segments := acc.segments ++
                        [{ start := segmentStart, endMs := segmentEnd,
                           audioData := jsSlice audioData startSample endSample,
                           confidence := total / (acc.speechFrames.length : ℚ) }],
                       segmentStart := none, speechFrames := [] }
            | none => none
          else
            some { acc with segmentStart := none, speechFrames := [] }
        else some acc
    | none => some acc

/-- The `for (const result of vadResults)` loop of
`SileroVAD.extractSpeechSegments`, with `none` propagating a thrown
out-of-bounds access. -/
def extractLoop (o : VADOptions) (vadResults : List VADResult)
    (audioData : List ℚ) : List VADResult → ExtractAcc → Option ExtractAcc
  | [], acc => some acc
  | r :: rest, acc =>
      match extractStep o vadResults audioData acc r with
      | some acc2 => extractLoop o vadResults audioData rest acc2
      | none => none

/-- Embedded from `SileroVAD.extractSpeechSegments`. -/
def extractSpeechSegments (o : VADOptions) (vadResults : List VADResult)
    (audioData : List ℚ) : Option (List AudioSegment) :=
  (extractLoop o vadResults audioData vadResults initAcc).map (fun acc => acc.segments)

/-- Embedded from `SileroVAD.reset`: restore the initial activity state
and zero-fill both LSTM buffers in place (length preserved). -/
def reset (s : Session) : Session :=
  { s with state := initState,
           h := List.replicate s.h.length 0,
           c := List.replicate s.c.length 0 }

/-- Embedded from `SileroVAD.getState`: a snapshot of the activity
state. -/
def getState (s : Session) : VADState := s.state

/-- The activity states reachable from the initial state by per-frame
`updateState` transitions and `reset` calls. -/
inductive ReachableState (o : VADOptions) : VADState → Prop
  | init : ReachableState o initState
  | step (st : VADState) (isSpeech : Bool) (timestamp : ℚ) :
      ReachableState o st → ReachableState o (updateState o isSpeech timestamp st)
  | reset (st : VADState) : ReachableState o st → ReachableState o initState

/-! ## Theorems -/

/-- C3: for every threshold and every probability value produced for a
frame (whatever branch produced it), the decision's `isSpeech` flag is
true exactly when the probability is `>=` the threshold; in particular a
probability equal to the threshold is classified as speech. -/
theorem isSpeech_iff_ge_threshold (model : Model) (sqrtFn : ℚ → ℚ)
    (s : Session) (frame : List ℚ) (r : VADResult) (s' : Session)
    (hok : processFrame model sqrtFn s frame = .ok (r, s')) :
    (r.isSpeech = true ↔ r.probability ≥ s.options.threshold) ∧
    (r.probability = s.options.threshold → r.isSpeech = true) := by
  unfold processFrame at hok
  split at hok
  · exact absurd hok (by simp)
  · simp only [Except.ok.injEq, Prod.mk.injEq] at hok
    obtain ⟨h1, _⟩ := hok
    subst h1
    constructor
    · exact decide_eq_true_iff
    · intro h
      exact decide_eq_true h.ge

/-- Witness for C3 at a concrete session and frame: a probability equal
to the threshold yields `isSpeech = true`. -/
theorem isSpeech_iff_ge_threshold_witness :
    processFrame (fun _ _ => some (1/2, none)) id
        { options := { sampleRate := 16000, frameSize := 2, threshold := 1/2,
                       minSpeechDurationMs := 250, maxSilenceDurationMs := 2000 },
          state := initState, h := [0, 0], c := [0, 0],
          useOnnxModel := true, hasSession := true } [0, 0] =
      .ok ({ probability := 1/2, isSpeech := true, frame := 0, timestamp := 0 },
           { options := { sampleRate := 16000, frameSize := 2, threshold := 1/2,
                          minSpeechDurationMs := 250, maxSilenceDurationMs := 2000 },
             state := { currentFrame := 1, speechActive := true, speechStart := some 0,
                        silenceDuration := 0, speechDuration := 2/16000*1000 },
             h := [0, 0], c := [0, 0], useOnnxModel := true, hasSession := true }) ∧
    ({ probability := 1/2, isSpeech := true, frame := 0, timestamp := 0 } : VADResult).isSpeech
      = true := by
  have hok : processFrame (fun _ _ => some (1/2, none)) id
      { options := { sampleRate := 16000, frameSize := 2, threshold := 1/2,
                     minSpeechDurationMs := 250, maxSilenceDurationMs := 2000 },
        state := initState, h := [0, 0], c := [0, 0],
        useOnnxModel := true, hasSession := true } [0, 0] =
      .ok ({ probability := 1/2, isSpeech := true, frame := 0, timestamp := 0 },
           { options := { sampleRate := 16000, frameSize := 2, threshold := 1/2,
                          minSpeechDurationMs := 250, maxSilenceDurationMs := 2000 },
             state := { currentFrame := 1, speechActive := true, speechStart := some 0,
                        silenceDuration := 0, speechDuration := 2/16000*1000 },
             h := [0, 0], c := [0, 0], useOnnxModel := true, hasSession := true }) := by
    simp [processFrame, initState, updateState, frameDurationMs]
  exact ⟨hok, (isSpeech_iff_ge_threshold _ _ _ _ _ _ hok).2 rfl⟩

/-- C2: while the state machine is active, a silent frame adds
`frameDurationMs` to the accumulated silence; it never deactivates the
machine while that accumulated silence is still strictly below
`maxSilenceDurationMs`, and as soon as it reaches or exceeds
`maxSilenceDurationMs` the machine deactivates (`speechActive = false`,
`speechStart = none`). A speech frame resets the silence accumulator, so
only consecutive silent frames accumulate. -/
theorem silence_hysteresis (o : VADOptions) (st : VADState) (ts : ℚ)
    (hact : st.speechActive = true) :
    (updateState o false ts st).silenceDuration
        = st.silenceDuration + frameDurationMs o ∧
    ((updateState o false ts st).silenceDuration < o.maxSilenceDurationMs →
      (updateState o false ts st).speechActive = true ∧
      (updateState o false ts st).speechStart = st.speechStart) ∧
    (o.maxSilenceDurationMs ≤ (updateState o false ts st).silenceDuration →
      (updateState o false ts st).speechActive = false ∧
      (updateState o false ts st).speechStart = none) ∧
    (updateState o true ts st).silenceDuration = 0 := by
  have h4 : (updateState o true ts st).silenceDuration = 0 := by
    simp [updateState]
  have hrw : updateState o false ts st =
      if st.silenceDuration + frameDurationMs o ≥ o.maxSilenceDurationMs then
        { st with silenceDuration := st.silenceDuration + frameDurationMs o,
                  speechActive := false, speechStart := none }
      else
        { st with silenceDuration := st.silenceDuration + frameDurationMs o } := by
    simp [updateState, hact]
  rw [hrw]
  split
  · rename_i hge
    exact ⟨rfl, fun hlt => absurd hge (not_le.mpr hlt), fun _ => ⟨rfl, rfl⟩, h4⟩
  · rename_i hlt
    exact ⟨rfl, fun _ => ⟨hact, rfl⟩, fun hge => absurd hge hlt, h4⟩

/-- Witness for C2: from an active state with 1904 ms of silence
accumulated, one more silent frame of 96 ms reaches 2000 ms and
deactivates. -/
theorem silence_hysteresis_witness :
    ((updateState { sampleRate := 16000, frameSize := 1536, threshold := 1/2,
                    minSpeechDurationMs := 250, maxSilenceDurationMs := 2000 }
        false 2016
        { currentFrame := 21, speechActive := true, speechStart := some 0,
          silenceDuration := 1904, speechDuration := 300 }).silenceDuration
      = 1904 + frameDurationMs { sampleRate := 16000, frameSize := 1536, threshold := 1/2,
                                 minSpeechDurationMs := 250, maxSilenceDurationMs := 2000 }) ∧
    (updateState { sampleRate := 16000, frameSize := 1536, threshold := 1/2,
                   minSpeechDurationMs := 250, maxSilenceDurationMs := 2000 }
        false 2016
        { currentFrame := 21, speechActive := true, speechStart := some 0,
          silenceDuration := 1904, speechDuration := 300 }).speechActive = false := by
  have h := silence_hysteresis
    { sampleRate := 16000, frameSize := 1536, threshold := 1/2,
      minSpeechDurationMs := 250, maxSilenceDurationMs := 2000 }
    { currentFrame := 21, speechActive := true, speechStart := some 0,
      silenceDuration := 1904, speechDuration := 300 } 2016 rfl
  exact ⟨h.1, (h.2.2.1 (by rw [h.1]; norm_num [frameDurationMs])).1⟩

/-- C9: in every activity state reachable from the initial state by
per-frame updates and resets, `speechActive` is true exactly when
`speechStart` is set. -/
theorem speechActive_iff_speechStart (o : VADOptions) (st : VADState)
    (h : ReachableState o st) :
    st.speechActive = true ↔ st.speechStart ≠ none := by
  induction h with
  | init => simp [initState]
  | step st isSpeech ts _ ih =>
      unfold updateState
      cases isSpeech with
      | false =>
          simp only [Bool.false_eq_true, if_false]
          by_cases ha : st.speechActive
          · simp only [ha, if_true]
            split
            · simp
            · simpa [ha] using ih
          · simpa [ha] using ih
      | true =>
          by_cases ha : st.speechActive
          · simp only [if_true, ha, not_true_eq_false, if_false]
            simpa [ha] using ih
          · simp [ha]
  | reset st _ _ => simp [initState]

/-- Witness for C9 at the initial state. -/
theorem speechActive_iff_speechStart_witness :
    (initState.speechActive = true ↔ initState.speechStart ≠ none) :=
  speechActive_iff_speechStart
    { sampleRate := 16000, frameSize := 1536, threshold := 1/2,
      minSpeechDurationMs := 250, maxSilenceDurationMs := 2000 }
    initState ReachableState.init

/-- C8: `reset` restores exactly the state a freshly constructed session
reports (`currentFrame 0`, inactive, no speech start, zero durations) and
zeroes every entry of the recurrent LSTM buffers. -/
theorem reset_restores_initial (s : Session) :
    (∀ o s0, mkSession o = .ok s0 → getState (reset s) = getState s0) ∧
    getState (reset s) =
      { currentFrame := 0, speechActive := false, speechStart := none,
        silenceDuration := 0, speechDuration := 0 } ∧
    (∀ x ∈ (reset s).h, x = 0) ∧ (∀ x ∈ (reset s).c, x = 0) := by
  refine ⟨?_, rfl, ?_, ?_⟩
  · intro o s0 hmk
    unfold mkSession at hmk
    split at hmk
    · exact absurd hmk (by simp)
    · simp only [Except.ok.injEq] at hmk
      subst hmk
      rfl
  · intro x hx
    exact List.eq_of_mem_replicate hx
  · intro x hx
    exact List.eq_of_mem_replicate hx

/-- Witness for C8: resetting a well-processed session gives the same
`getState` as a freshly constructed one. -/
theorem reset_restores_initial_witness :
    getState (reset ⟨⟨16000, 1536, 1, 250, 2000⟩,
        ⟨7, true, some 96, 192, 480⟩, [1, 2, 3], [4], false, true⟩)
      = getState ⟨⟨16000, 1536, 1, 250, 2000⟩, initState,
          List.replicate 256 0, List.replicate 256 0, true, false⟩ := by
  have hval : validateOptions ⟨16000, 1536, 1, 250, 2000⟩ =
      Except.ok ⟨16000, 1536, 1, 250, 2000⟩ := by
    simp [validateOptions]
  have hmk : mkSession ⟨16000, 1536, 1, 250, 2000⟩ =
      Except.ok ⟨⟨16000, 1536, 1, 250, 2000⟩, initState,
        List.replicate 256 0, List.replicate 256 0, true, false⟩ := by
    unfold mkSession
    rw [hval]
  exact (reset_restores_initial _).1 _ _ hmk

/-- C7 counterexample: a frameSize of 512 (mismatching the model's
expected 1536) is not a configuration error — construction succeeds and
the frameSize is silently overwritten with 1536. -/
theorem frameSize_mismatch_not_an_error :
    validateOptions ⟨16000, 512, 1, 250, 2000⟩ = .ok ⟨16000, 1536, 1, 250, 2000⟩ ∧
    mkSession ⟨16000, 512, 1, 250, 2000⟩ =
      .ok ⟨⟨16000, 1536, 1, 250, 2000⟩, initState,
           List.replicate 256 0, List.replicate 256 0, true, false⟩ := by
  have hval : validateOptions ⟨16000, 512, 1, 250, 2000⟩ =
      .ok ⟨16000, 1536, 1, 250, 2000⟩ := by
    simp [validateOptions]
  exact ⟨hval, by unfold mkSession; rw [hval]⟩

/-- C7 (amended): construction fails with a validation error exactly for
an invalid sample rate or threshold (and the constructor propagates that
error, leaving no object); a mismatched frameSize is not an error — the
options are kept with frameSize coerced to 1536. -/
theorem validateOptions_spec (o : VADOptions) :
    (¬ (o.sampleRate = 8000 ∨ o.sampleRate = 16000) →
      validateOptions o = .error "Sample rate must be 8000 or 16000 Hz" ∧
      mkSession o = .error "Sample rate must be 8000 or 16000 Hz") ∧
    ((o.sampleRate = 8000 ∨ o.sampleRate = 16000) →
      (o.threshold < 0 ∨ o.threshold > 1) →
      validateOptions o = .error "Threshold must be between 0 and 1" ∧
      mkSession o = .error "Threshold must be between 0 and 1") ∧
    ((o.sampleRate = 8000 ∨ o.sampleRate = 16000) →
      0 ≤ o.threshold → o.threshold ≤ 1 →
      validateOptions o = .ok { o with frameSize := 1536 }) := by
  refine ⟨?_, ?_, ?_⟩
  · intro h
    have hv : validateOptions o = .error "Sample rate must be 8000 or 16000 Hz" := by
      unfold validateOptions
      rw [if_pos h]
    exact ⟨hv, by unfold mkSession; rw [hv]⟩
  · intro hs ht
    have hv : validateOptions o = .error "Threshold must be between 0 and 1" := by
      unfold validateOptions
      rw [if_neg (not_not_intro hs)]
      by_cases hf : o.frameSize = 1536
      · simp only [hf, ne_eq, not_true_eq_false, if_false]
        rw [if_pos ht]
      · simp only [ne_eq, hf, not_false_eq_true, if_true]
        rw [if_pos ht]
    exact ⟨hv, by unfold mkSession; rw [hv]⟩
  · intro hs h0 h1
    have hth : ¬ (o.threshold < 0 ∨ o.threshold > 1) := by
      rintro (hc | hc)
      · exact absurd hc (not_lt.mpr h0)
      · exact absurd hc (not_lt.mpr h1)
    unfold validateOptions
    rw [if_neg (not_not_intro hs)]
    by_cases hf : o.frameSize = 1536
    · simp only [hf, ne_eq, not_true_eq_false, if_false]
      rw [if_neg hth]
      cases o
      simp_all
    · simp only [ne_eq, hf, not_false_eq_true, if_true]
      rw [if_neg hth]

/-- Witness for the amended C7: the three validation outcomes at concrete
option records. -/
theorem validateOptions_spec_witness :
    (validateOptions ⟨44100, 1536, 1, 250, 2000⟩ =
        .error "Sample rate must be 8000 or 16000 Hz" ∧
      mkSession ⟨44100, 1536, 1, 250, 2000⟩ =
        .error "Sample rate must be 8000 or 16000 Hz") ∧
    (validateOptions ⟨8000, 1536, 2, 250, 2000⟩ =
        .error "Threshold must be between 0 and 1" ∧
      mkSession ⟨8000, 1536, 2, 250, 2000⟩ =
        .error "Threshold must be between 0 and 1") ∧
    validateOptions ⟨8000, 512, 1, 250, 2000⟩ = .ok ⟨8000, 1536, 1, 250, 2000⟩ := by
  refine ⟨(validateOptions_spec _).1 ?_, (validateOptions_spec _).2.1 ?_ ?_,
          (validateOptions_spec _).2.2 ?_ ?_ ?_⟩
  · rintro (h | h) <;> simp at h
  · left; rfl
  · right; decide
  · left; rfl
  · decide
  · decide

/-- C1: on a backend inference failure inside `processFrame`, the call
still returns a decision — computed from the energy heuristic — and the
session permanently clears `useOnnxModel`; and once `useOnnxModel` is
false, every frame of the right size produces an energy-based decision
without error and the flag stays false (so the model is never retried). -/
theorem inference_failure_fallback (model : Model) (sqrtFn : ℚ → ℚ)
    (s : Session) (frame : List ℚ)
    (hlen : frame.length = s.options.frameSize) :
    (s.useOnnxModel = true → s.hasSession = true → model frame s.h = none →
      ∃ r s', processFrame model sqrtFn s frame = .ok (r, s') ∧
        r.probability = energyBasedVAD sqrtFn frame ∧
        s'.useOnnxModel = false) ∧
    (s.useOnnxModel = false →
      ∃ r s', processFrame model sqrtFn s frame = .ok (r, s') ∧
        r.probability = energyBasedVAD sqrtFn frame ∧
        s'.useOnnxModel = false) := by
  constructor
  · intro hu hs hm
    have hb : (s.useOnnxModel && s.hasSession) = true := by rw [hu, hs]; rfl
    unfold processFrame
    rw [if_neg (not_not_intro hlen)]
    simp only [hb, if_true, hm]
    exact ⟨_, _, rfl, rfl, rfl⟩
  · intro hu
    have hb : (s.useOnnxModel && s.hasSession) = false := by rw [hu]; rfl
    unfold processFrame
    rw [if_neg (not_not_intro hlen)]
    simp only [hb, Bool.false_eq_true, if_false]
    exact ⟨_, _, rfl, rfl, hu⟩

/-- Witness for C1: a backend that always fails, at a concrete session in
both the armed and the already-degraded configuration. -/
theorem inference_failure_fallback_witness :
    (∃ r s', processFrame (fun _ _ => none) id
        ⟨⟨16000, 2, 1, 250, 2000⟩, initState, [0, 0], [0, 0], true, true⟩ [0, 0]
          = .ok (r, s') ∧
        r.probability = energyBasedVAD id [0, 0] ∧ s'.useOnnxModel = false) ∧
    (∃ r s', processFrame (fun _ _ => none) id
        ⟨⟨16000, 2, 1, 250, 2000⟩, initState, [0, 0], [0, 0], false, true⟩ [0, 0]
          = .ok (r, s') ∧
        r.probability = energyBasedVAD id [0, 0] ∧ s'.useOnnxModel = false) :=
  ⟨(inference_failure_fallback _ _ _ _ rfl).1 rfl rfl rfl,
   (inference_failure_fallback _ _ _ _ rfl).2 rfl⟩

/-- `processFrame` on a frame of the configured size always succeeds and
leaves the options untouched. -/
theorem processFrame_eq_ok (model : Model) (sqrtFn : ℚ → ℚ) (s : Session)
    (frame : List ℚ) (hlen : frame.length = s.options.frameSize) :
    ∃ r s', processFrame model sqrtFn s frame = .ok (r, s') ∧
      s'.options = s.options := by
  unfold processFrame
  rw [if_neg (not_not_intro hlen)]
  refine ⟨_, _, rfl, ?_⟩
  cases hB : (s.useOnnxModel && s.hasSession) with
  | false => simp only [hB, Bool.false_eq_true, if_false]
  | true =>
      simp only [hB, if_true]
      cases hm : model frame s.h with
      | none => rfl
      | some v => rfl

/-- `runFrames` on chunks of the configured size succeeds with one result
per chunk. -/
theorem runFrames_ok (model : Model) (sqrtFn : ℚ → ℚ) :
    ∀ (chunks : List (List ℚ)) (s : Session),
      (∀ f ∈ chunks, f.length = s.options.frameSize) →
      ∃ rs s', runFrames model sqrtFn chunks s = .ok (rs, s') ∧
        rs.length = chunks.length ∧ s'.options = s.options := by
  intro chunks
  induction chunks with
  | nil => exact fun s _ => ⟨[], s, rfl, rfl, rfl⟩
  | cons f rest ih =>
      intro s hall
      obtain ⟨r, s2, hok, hopt⟩ :=
        processFrame_eq_ok model sqrtFn s f (hall f (by simp))
      obtain ⟨rs, s3, hok2, hlen2, hopt2⟩ :=
        ih s2 (fun g hg => by rw [hopt]; exact hall g (by simp [hg]))
      refine ⟨r :: rs, s3, ?_, by simp [hlen2], by rw [hopt2, hopt]⟩
      simp only [runFrames, hok, hok2]

/-- Unfolding `chunkAudio` on the empty buffer. -/
theorem chunkAudio_nil (frameSize : ℕ) : chunkAudio frameSize [] = [] := by
  rw [chunkAudio]
  simp

/-- Unfolding `chunkAudio` one step on a non-empty buffer. -/
theorem chunkAudio_cons (frameSize : ℕ) (l : List ℚ)
    (hfs : 0 < frameSize) (hl : l ≠ []) :
    chunkAudio frameSize l =
      (if (l.take frameSize).length < frameSize then
        l.take frameSize ++ List.replicate (frameSize - (l.take frameSize).length) 0
       else l.take frameSize) :: chunkAudio frameSize (l.drop frameSize) := by
  rw [chunkAudio]
  rw [dif_pos ⟨hfs, hl⟩]

/-- The number of chunks `processAudio` forms is the rounded-up frame
count. -/
theorem chunkAudio_length (frameSize : ℕ) (hfs : 0 < frameSize) :
    ∀ (n : ℕ) (l : List ℚ), l.length ≤ n →
      (chunkAudio frameSize l).length = (l.length + frameSize - 1) / frameSize := by
  intro n
  induction n with
  | zero =>
      intro l hl
      have hnil : l = [] := List.length_eq_zero.mp (Nat.le_zero.mp hl)
      subst hnil
      rw [chunkAudio_nil]
      simp only [List.length_nil, Nat.zero_add]
      exact (Nat.div_eq_of_lt (by omega)).symm
  | succ n ih =>
      intro l hl
      by_cases hnil : l = []
      · subst hnil
        rw [chunkAudio_nil]
        simp only [List.length_nil, Nat.zero_add]
        exact (Nat.div_eq_of_lt (by omega)).symm
      · rw [chunkAudio_cons frameSize l hfs hnil]
        simp only [List.length_cons]
        rw [ih (l.drop frameSize) (by simp only [List.length_drop]; omega)]
        simp only [List.length_drop]
        have hpos : 0 < l.length := List.length_pos.mpr hnil
        rcases le_or_lt l.length frameSize with hle | hlt
        · have h1 : l.length - frameSize = 0 := by omega
          rw [h1]
          have h2 : (0 + frameSize - 1) / frameSize = 0 := Nat.div_eq_of_lt (by omega)
          rw [h2]
          have h3 : l.length + frameSize - 1 = (l.length - 1) + frameSize := by omega
          rw [h3, Nat.add_div_right _ hfs, Nat.div_eq_of_lt (by omega)]
        · have h3 : l.length + frameSize - 1
              = (l.length - frameSize + frameSize - 1) + frameSize := by omega
          rw [h3, Nat.add_div_right _ hfs]

/-- Every chunk `processAudio` forms has exactly `frameSize` samples. -/
theorem chunkAudio_frame_length (frameSize : ℕ) (hfs : 0 < frameSize) :
    ∀ (n : ℕ) (l : List ℚ), l.length ≤ n →
      ∀ f ∈ chunkAudio frameSize l, f.length = frameSize := by
  intro n
  induction n with
  | zero =>
      intro l hl
      have hnil : l = [] := List.length_eq_zero.mp (Nat.le_zero.mp hl)
      subst hnil
      rw [chunkAudio_nil]
      intro f hf
      exact absurd hf (List.not_mem_nil f)
  | succ n ih =>
      intro l hl f hf
      by_cases hnil : l = []
      · subst hnil
        rw [chunkAudio_nil] at hf
        exact absurd hf (List.not_mem_nil f)
      · rw [chunkAudio_cons frameSize l hfs hnil] at hf
        have htake : (l.take frameSize).length ≤ frameSize := by
          simp [List.length_take]
        rcases List.mem_cons.mp hf with hhead | htail
        · subst hhead
          split
          · rename_i hshort
            simp only [List.length_append, List.length_replicate]
            omega
          · rename_i hfull
            omega
        · exact ih (l.drop frameSize) (by simp only [List.length_drop]; omega) f htail

/-- The chunks of `processAudio`, concatenated, are the original buffer
followed by strictly fewer than `frameSize` padding zeros. -/
theorem chunkAudio_join (frameSize : ℕ) (hfs : 0 < frameSize) :
    ∀ (n : ℕ) (l : List ℚ), l.length ≤ n →
      ∃ k, k < frameSize ∧
        (chunkAudio frameSize l).flatten = l ++ List.replicate k 0 := by
  intro n
  induction n with
  | zero =>
      intro l hl
      have hnil : l = [] := List.length_eq_zero.mp (Nat.le_zero.mp hl)
      subst hnil
      rw [chunkAudio_nil]
      exact ⟨0, hfs, by simp⟩
  | succ n ih =>
      intro l hl
      by_cases hnil : l = []
      · subst hnil
        rw [chunkAudio_nil]
        exact ⟨0, hfs, by simp⟩
      · rw [chunkAudio_cons frameSize l hfs hnil]
        have hpos : 0 < l.length := List.length_pos.mpr hnil
        rcases le_or_lt frameSize l.length with hge | hlt
        · have hfull : ¬ (l.take frameSize).length < frameSize := by
            simp [List.length_take]
            omega
          rw [if_neg hfull]
          obtain ⟨k, hk, hjoin⟩ := ih (l.drop frameSize)
            (by simp only [List.length_drop]; omega)
          refine ⟨k, hk, ?_⟩
          simp only [List.flatten_cons, hjoin, ← List.append_assoc,
            List.take_append_drop]
        · have hshort : (l.take frameSize).length < frameSize := by
            simp [List.length_take]
            omega
          rw [if_pos hshort]
          have hdrop : l.drop frameSize = [] := by
            apply List.eq_nil_of_length_eq_zero
            simp only [List.length_drop]
            omega
          rw [hdrop, chunkAudio_nil]
          refine ⟨frameSize - (l.take frameSize).length, ?_, ?_⟩
          · simp only [List.length_take]
            omega
          · simp only [List.flatten_cons, List.flatten_nil, List.append_nil,
              List.take_of_length_le (le_of_lt hlt)]

/-- The length of the `createFrames` loop output from index `i` on, with
hop equal to the frame size. -/
theorem createFramesAux_length (l : List ℚ) (frameSize : ℕ) (hfs : 0 < frameSize) :
    ∀ (n i : ℕ), l.length + 1 - i ≤ n →
      (createFramesAux l frameSize frameSize i).length = (l.length - i) / frameSize := by
  intro n
  induction n with
  | zero =>
      intro i hi
      rw [createFramesAux, dif_neg (by omega)]
      simp only [List.length_nil]
      exact (Nat.div_eq_of_lt (by omega)).symm
  | succ n ih =>
      intro i hi
      rw [createFramesAux]
      by_cases hc : (i : ℤ) ≤ (l.length : ℤ) - (frameSize : ℤ)
      · rw [dif_pos ⟨hfs, hc⟩]
        simp only [List.length_cons]
        rw [ih (i + frameSize) (by omega)]
        have h1 : frameSize ≤ l.length - i := by omega
        rw [Nat.div_eq_sub_div hfs h1]
        have h2 : l.length - (i + frameSize) = l.length - i - frameSize := by omega
        rw [h2]
      · rw [dif_neg (fun hcon => hc hcon.2)]
        simp only [List.length_nil]
        exact (Nat.div_eq_of_lt (by omega)).symm

/-- Every frame the `createFrames` loop emits has exactly `frameSize`
samples. -/
theorem createFramesAux_frame_length (l : List ℚ) (frameSize : ℕ) :
    ∀ (n i : ℕ), l.length + 1 - i ≤ n →
      ∀ f ∈ createFramesAux l frameSize frameSize i, f.length = frameSize := by
  intro n
  induction n with
  | zero =>
      intro i hi f hf
      rw [createFramesAux] at hf
      rw [dif_neg (by omega)] at hf
      exact absurd hf (List.not_mem_nil f)
  | succ n ih =>
      intro i hi f hf
      rw [createFramesAux] at hf
      by_cases hc : 0 < frameSize ∧ (i : ℤ) ≤ (l.length : ℤ) - (frameSize : ℤ)
      · rw [dif_pos hc] at hf
        rcases List.mem_cons.mp hf with hhead | htail
        · subst hhead
          simp only [List.length_take, List.length_drop]
          omega
        · exact ih (i + frameSize) (by omega) f htail
      · rw [dif_neg hc] at hf
        exact absurd hf (List.not_mem_nil f)

/-- C6: the two tail policies differ as described — `processAudio` chunks
the buffer into `frameSize`-sample slices, zero-padding the final short
slice (so the chunks concatenate to the buffer plus fewer than
`frameSize` zeros) and producing `ceil(n / frameSize)` decisions, while
`createFrames` with the default hop drops the partial tail and produces
exactly `floor(n / frameSize)` frames of `frameSize` samples each. -/
theorem tail_policies (frameSize : ℕ) (audioData : List ℚ)
    (hfs : 0 < frameSize) (hne : audioData ≠ []) :
    (∀ (model : Model) (sqrtFn : ℚ → ℚ) (s : Session),
      s.options.frameSize = frameSize →
      ∃ rs s', processAudio model sqrtFn s audioData = .ok (rs, s') ∧
        rs.length = (audioData.length + frameSize - 1) / frameSize) ∧
    (∀ f ∈ chunkAudio frameSize audioData, f.length = frameSize) ∧
    (∃ k, k < frameSize ∧
      (chunkAudio frameSize audioData).flatten = audioData ++ List.replicate k 0) ∧
    (createFrames audioData frameSize none).length = audioData.length / frameSize ∧
    (∀ f ∈ createFrames audioData frameSize none, f.length = frameSize) := by
  have hframes := chunkAudio_frame_length frameSize hfs audioData.length audioData le_rfl
  refine ⟨?_, hframes, ?_, ?_, ?_⟩
  · intro model sqrtFn s hsf
    unfold processAudio
    rw [hsf]
    obtain ⟨rs, s', hok, hlen, _⟩ :=
      runFrames_ok model sqrtFn (chunkAudio frameSize audioData) s
        (fun f hf => by rw [hsf]; exact hframes f hf)
    refine ⟨rs, s', hok, ?_⟩
    rw [hlen, chunkAudio_length frameSize hfs audioData.length audioData le_rfl]
  · exact chunkAudio_join frameSize hfs audioData.length audioData le_rfl
  · unfold createFrames
    exact createFramesAux_length audioData frameSize hfs
      (audioData.length + 1) 0 le_rfl
  · unfold createFrames
    exact createFramesAux_frame_length audioData frameSize
      (audioData.length + 1) 0 le_rfl

/-- Witness for C6 on a 7-sample buffer with frame size 3: three padded
decisions from `processAudio`, two tail-dropped frames from
`createFrames`. -/
theorem tail_policies_witness :
    (∃ rs s', processAudio (fun _ _ => none) id
        ⟨⟨16000, 3, 1, 250, 2000⟩, initState, [0], [0], false, false⟩
        [1, 2, 3, 4, 5, 6, 7] = .ok (rs, s') ∧
      rs.length = (7 + 3 - 1) / 3) ∧
    (∀ f ∈ chunkAudio 3 [1, 2, 3, 4, 5, 6, 7], f.length = 3) ∧
    (∃ k, k < 3 ∧
      (chunkAudio 3 [1, 2, 3, 4, 5, 6, 7]).flatten
        = [1, 2, 3, 4, 5, 6, 7] ++ List.replicate k 0) ∧
    (createFrames [1, 2, 3, 4, 5, 6, 7] 3 none).length = 7 / 3 ∧
    (∀ f ∈ createFrames [1, 2, 3, 4, 5, 6, 7] 3 none, f.length = 3) := by
  obtain ⟨h1, h2, h3, h4, h5⟩ :=
    tail_policies 3 [1, 2, 3, 4, 5, 6, 7] (by decide) (by decide)
  exact ⟨h1 (fun _ _ => none) id
      ⟨⟨16000, 3, 1, 250, 2000⟩, initState, [0], [0], false, false⟩ rfl,
    h2, h3, h4, h5⟩

/-- The extraction loop splits over list concatenation. -/
theorem extractLoop_append (o : VADOptions) (vr : List VADResult) (ad : List ℚ) :
    ∀ (xs ys : List VADResult) (acc : ExtractAcc),
      extractLoop o vr ad (xs ++ ys) acc =
        (extractLoop o vr ad xs acc).bind (extractLoop o vr ad ys) := by
  intro xs
  induction xs with
  | nil => intro ys acc; rfl
  | cons x xs ih =>
      intro ys acc
      simp only [List.cons_append, extractLoop]
      cases hstep : extractStep o vr ad acc x with
      | none => rfl
      | some acc2 => exact ih ys acc2

/-- Scanning speech decisions while a segment is open keeps it open at the
same start and only appends the member frames. -/
theorem extractLoop_speech_open (o : VADOptions) (vr : List VADResult)
    (ad : List ℚ) :
    ∀ (ds : List VADResult) (acc : ExtractAcc) (t : ℚ),
      acc.segmentStart = some t → (∀ x ∈ ds, x.isSpeech = true) →
      extractLoop o vr ad ds acc =
        some ⟨acc.segments, some t,
              acc.speechFrames ++ ds.map (fun x => x.frame)⟩ := by
  intro ds
  induction ds with
  | nil =>
      intro acc t hst _
      simp only [extractLoop, List.map_nil, List.append_nil, ← hst]
  | cons d ds ih =>
      intro acc t hst hall
      have hd : d.isSpeech = true := hall d (by simp)
      simp only [extractLoop, extractStep, hd, if_true, hst]
      rw [ih _ t rfl (fun x hx => hall x (by simp [hx]))]
      simp [List.append_assoc]

/-- Scanning a non-empty run of speech decisions from a closed
accumulator opens a segment at the first decision's timestamp and
collects exactly the run's frames. -/
theorem extractLoop_speech_closed (o : VADOptions) (vr : List VADResult)
    (ad : List ℚ) (d : VADResult) (ds : List VADResult) (acc : ExtractAcc)
    (hst : acc.segmentStart = none) (hd : d.isSpeech = true)
    (hds : ∀ x ∈ ds, x.isSpeech = true) :
    extractLoop o vr ad (d :: ds) acc =
      some ⟨acc.segments, some d.timestamp,
            acc.speechFrames ++ (d :: ds).map (fun x => x.frame)⟩ := by
  simp only [extractLoop, extractStep, hd, if_true, hst]
  rw [extractLoop_speech_open o vr ad ds _ d.timestamp rfl hds]
  simp [List.append_assoc]

/-- One extraction step can only append to the emitted segments. -/
theorem extractStep_segments (o : VADOptions) (vr : List VADResult)
    (ad : List ℚ) (acc : ExtractAcc) (r : VADResult) (acc2 : ExtractAcc)
    (h : extractStep o vr ad acc r = some acc2) :
    ∃ t, acc2.segments = acc.segments ++ t := by
  unfold extractStep at h
  simp only [] at h
  iterate 6 (all_goals try split at h)
  all_goals try exact Option.noConfusion h
  all_goals simp only [Option.some.injEq] at h
  all_goals subst h
  all_goals first
    | exact ⟨_, rfl⟩
    | exact ⟨[], (List.append_nil _).symm⟩

/-- The extraction loop can only append to the emitted segments. -/
theorem extractLoop_segments_mono (o : VADOptions) (vr : List VADResult)
    (ad : List ℚ) :
    ∀ (xs : List VADResult) (acc acc2 : ExtractAcc),
      extractLoop o vr ad xs acc = some acc2 →
      ∃ t, acc2.segments = acc.segments ++ t := by
  intro xs
  induction xs with
  | nil =>
      intro acc acc2 h
      simp only [extractLoop, Option.some.injEq] at h
      exact ⟨[], by rw [← h]; simp⟩
  | cons x xs ih =>
      intro acc acc2 h
      simp only [extractLoop] at h
      cases hs : extractStep o vr ad acc x with
      | none => rw [hs] at h; exact absurd h (by simp)
      | some accm =>
          rw [hs] at h
          obtain ⟨t1, ht1⟩ := extractStep_segments o vr ad acc x accm hs
          obtain ⟨t2, ht2⟩ := ih accm acc2 h
          exact ⟨t1 ++ t2, by rw [ht2, ht1, List.append_assoc]⟩

/-- Scanning speech decisions never emits a segment and never fails. -/
theorem extractLoop_allSpeech (o : VADOptions) (vr : List VADResult)
    (ad : List ℚ) :
    ∀ (run : List VADResult) (acc : ExtractAcc),
      (∀ x ∈ run, x.isSpeech = true) →
      ∃ acc2, extractLoop o vr ad run acc = some acc2 ∧
        acc2.segments = acc.segments := by
  intro run
  induction run with
  | nil => intro acc _; exact ⟨acc, rfl, rfl⟩
  | cons x xs ih =>
      intro acc hall
      have hx : x.isSpeech = true := hall x (by simp)
      simp only [extractLoop, extractStep, hx, if_true]
      obtain ⟨acc2, h1, h2⟩ := ih _ (fun y hy => hall y (by simp [hy]))
      exact ⟨acc2, h1, by rw [h2]⟩

/-- The probability `reduce` succeeds whenever every collected frame index
is in bounds. -/
theorem sumProbs_isSome (vr : List VADResult) :
    ∀ (fr : List ℕ) (acc : ℚ), (∀ f ∈ fr, f < vr.length) →
      ∃ q, sumProbs vr fr acc = some q := by
  intro fr
  induction fr with
  | nil => intro acc _; exact ⟨acc, rfl⟩
  | cons f fs ih =>
      intro acc hall
      have hf : f < vr.length := hall f (by simp)
      unfold sumProbs
      cases hg : vr.get? f with
      | none =>
          have := List.get?_eq_none.mp hg
          omega
      | some r => exact ih _ (fun g hg2 => hall g (by simp [hg2]))

/-- When every decision's `frame` field indexes back to itself, the
probability `reduce` over a run's frames computes exactly the sum of the
run's probabilities. -/
theorem sumProbs_members (vr : List VADResult) :
    ∀ (ds : List VADResult) (acc : ℚ),
      (∀ x ∈ ds, vr.get? x.frame = some x) →
      sumProbs vr (ds.map (fun x => x.frame)) acc
        = some (acc + (ds.map (fun x => x.probability)).sum) := by
  intro ds
  induction ds with
  | nil => intro acc _; simp [sumProbs]
  | cons x xs ih =>
      intro acc hall
      simp only [List.map_cons, sumProbs, hall x (by simp)]
      rw [ih _ (fun y hy => hall y (by simp [hy]))]
      rw [List.sum_cons, add_assoc]

/-- The extraction loop never fails while every decision's frame index
(and every already-collected index) is in bounds. -/
theorem extractLoop_isSome (o : VADOptions) (vr : List VADResult)
    (ad : List ℚ) :
    ∀ (xs : List VADResult) (acc : ExtractAcc),
      (∀ x ∈ xs, x.frame < vr.length) →
      (∀ f ∈ acc.speechFrames, f < vr.length) →
      ∃ acc2, extractLoop o vr ad xs acc = some acc2 := by
  intro xs
  induction xs with
  | nil => intro acc _ _; exact ⟨acc, rfl⟩
  | cons x xs ih =>
      intro acc hxs hacc
      simp only [extractLoop]
      by_cases hsp : x.isSpeech = true
      · simp only [extractStep, hsp, if_true]
        apply ih _ (fun y hy => hxs y (by simp [hy]))
        intro f hf
        rcases List.mem_append.mp hf with hmem | hone
        · exact hacc f hmem
        · rw [List.mem_singleton.mp hone]
          exact hxs x (by simp)
      · have hsp' : x.isSpeech = false := by
          revert hsp; cases x.isSpeech <;> simp
        simp only [extractStep, hsp', Bool.false_eq_true, if_false]
        cases hst : acc.segmentStart with
        | none => exact ih _ (fun y hy => hxs y (by simp [hy])) hacc
        | some t =>
            simp only []
            by_cases hlen : acc.speechFrames.length > 0
            · rw [if_pos hlen]
              by_cases hdur : x.timestamp - t ≥ o.minSpeechDurationMs
              · rw [if_pos hdur]
                obtain ⟨q, hq⟩ := sumProbs_isSome vr acc.speechFrames 0 hacc
                rw [hq]
                exact ih _ (fun y hy => hxs y (by simp [hy]))
                  (fun f hf => absurd hf (List.not_mem_nil f))
              · rw [if_neg hdur]
                exact ih _ (fun y hy => hxs y (by simp [hy]))
                  (fun f hf => absurd hf (List.not_mem_nil f))
            · rw [if_neg hlen]
              exact ih _ (fun y hy => hxs y (by simp [hy])) hacc

/-- Core characterization: processing a closed run of speech decisions
(opened by `d`, closed by `closer`) contributes exactly one segment when
its duration reaches `minSpeechDurationMs` and nothing otherwise. -/
theorem extract_run_core (o : VADOptions) (ad : List ℚ)
    (A B : List VADResult) (d closer : VADResult) (run : List VADResult)
    (accA : ExtractAcc) (total : ℚ)
    (hA : extractLoop o (A ++ ((d :: run) ++ closer :: B)) ad A initAcc = some accA)
    (hopen : accA.segmentStart = none) (hfr : accA.speechFrames = [])
    (hd : d.isSpeech = true) (hrun : ∀ x ∈ run, x.isSpeech = true)
    (hcl : closer.isSpeech = false)
    (hsum : sumProbs (A ++ ((d :: run) ++ closer :: B))
      ((d :: run).map (fun x => x.frame)) 0 = some total) :
    ∀ segs, extractSpeechSegments o (A ++ ((d :: run) ++ closer :: B)) ad = some segs →
      ∃ tail, segs = accA.segments ++
        (if closer.timestamp - d.timestamp ≥ o.minSpeechDurationMs then
          [⟨d.timestamp, closer.timestamp,
            jsSlice ad ⌊d.timestamp / 1000 * o.sampleRate⌋
              ⌊closer.timestamp / 1000 * o.sampleRate⌋,
            total / (((d :: run).length : ℕ) : ℚ)⟩]
         else []) ++ tail := by
  intro segs hsegs
  unfold extractSpeechSegments at hsegs
  rw [extractLoop_append, hA] at hsegs
  simp only [Option.some_bind] at hsegs
  rw [extractLoop_append,
    extractLoop_speech_closed o (A ++ ((d :: run) ++ closer :: B)) ad d run accA
      hopen hd hrun] at hsegs
  simp only [Option.some_bind, hfr, List.nil_append] at hsegs
  simp only [extractLoop, extractStep, hcl, Bool.false_eq_true, if_false] at hsegs
  try simp only [] at hsegs
  have hlen : ((d :: run).map (fun x => x.frame)).length > 0 := by simp
  rw [if_pos hlen] at hsegs
  by_cases hdur : closer.timestamp - d.timestamp ≥ o.minSpeechDurationMs
  · rw [if_pos hdur, hsum] at hsegs
    try simp only [] at hsegs
    cases hB : extractLoop o (A ++ ((d :: run) ++ closer :: B)) ad B
        ⟨accA.segments ++
          [⟨d.timestamp, closer.timestamp,
            jsSlice ad ⌊d.timestamp / 1000 * o.sampleRate⌋
              ⌊closer.timestamp / 1000 * o.sampleRate⌋,
            total / (((d :: run).map (fun x => x.frame)).length : ℚ)⟩],
          none, []⟩ with
    | none => rw [hB] at hsegs; exact absurd hsegs (by simp)
    | some accF =>
        rw [hB] at hsegs
        simp only [Option.map_some', Option.some.injEq] at hsegs
        obtain ⟨tail, htail⟩ :=
          extractLoop_segments_mono o (A ++ ((d :: run) ++ closer :: B)) ad B _ accF hB
        refine ⟨tail, ?_⟩
        rw [← hsegs, htail, if_pos hdur]
        simp [List.append_assoc, List.length_map]
  · rw [if_neg hdur] at hsegs
    try simp only [] at hsegs
    cases hB : extractLoop o (A ++ ((d :: run) ++ closer :: B)) ad B
        ⟨accA.segments, none, []⟩ with
    | none => rw [hB] at hsegs; exact absurd hsegs (by simp)
    | some accF =>
        rw [hB] at hsegs
        simp only [Option.map_some', Option.some.injEq] at hsegs
        obtain ⟨tail, htail⟩ :=
          extractLoop_segments_mono o (A ++ ((d :: run) ++ closer :: B)) ad B _ accF hB
        refine ⟨tail, ?_⟩
        rw [← hsegs, htail, if_neg hdur]
        simp

/-- C4: inside any decision sequence, a closed run of consecutive speech
decisions — opened at the first speech decision's timestamp, closed at
the first following non-speech decision's timestamp — is emitted as a
segment exactly when its duration reaches `minSpeechDurationMs`
(equality kept), and contributes nothing otherwise. -/
theorem segment_min_duration_filter (o : VADOptions) (vr : List VADResult)
    (ad : List ℚ) (A B : List VADResult) (d closer : VADResult)
    (run : List VADResult) (accA : ExtractAcc) (total : ℚ)
    (hvr : vr = A ++ ((d :: run) ++ closer :: B))
    (hA : extractLoop o vr ad A initAcc = some accA)
    (hopen : accA.segmentStart = none) (hfr : accA.speechFrames = [])
    (hd : d.isSpeech = true) (hrun : ∀ x ∈ run, x.isSpeech = true)
    (hcl : closer.isSpeech = false)
    (hsum : sumProbs vr ((d :: run).map (fun x => x.frame)) 0 = some total) :
    ∀ segs, extractSpeechSegments o vr ad = some segs →
      ∃ tail, segs = accA.segments ++
        (if closer.timestamp - d.timestamp ≥ o.minSpeechDurationMs then
          [⟨d.timestamp, closer.timestamp,
            jsSlice ad ⌊d.timestamp / 1000 * o.sampleRate⌋
              ⌊closer.timestamp / 1000 * o.sampleRate⌋,
            total / (((d :: run).length : ℕ) : ℚ)⟩]
         else []) ++ tail := by
  subst hvr
  exact extract_run_core o ad A B d closer run accA total hA hopen hfr hd hrun hcl hsum

/-- Witness for C4 at a run of exactly the minimum duration (boundary
case, kept). -/
theorem segment_min_duration_filter_witness :
    ∃ segs tail,
      extractSpeechSegments ⟨16000, 1536, 1, 250, 2000⟩
        [⟨1, true, 0, 0⟩, ⟨0, false, 1, 250⟩] [] = some segs ∧
      segs = initAcc.segments ++
        (if (250 : ℚ) - 0 ≥ (250 : ℚ) then
          [⟨0, 250, jsSlice [] ⌊(0 : ℚ) / 1000 * (16000 : ℚ)⌋
              ⌊(250 : ℚ) / 1000 * (16000 : ℚ)⌋,
            1 / (((1 : ℕ) : ℚ))⟩]
         else []) ++ tail := by
  have hout : extractSpeechSegments ⟨16000, 1536, 1, 250, 2000⟩
      [⟨1, true, 0, 0⟩, ⟨0, false, 1, 250⟩] [] =
      some [⟨0, 250, [], 1⟩] := by
    simp [extractSpeechSegments, extractLoop, extractStep, sumProbs, initAcc, jsSlice]
  obtain ⟨tail, htail⟩ :=
    segment_min_duration_filter ⟨16000, 1536, 1, 250, 2000⟩
      [⟨1, true, 0, 0⟩, ⟨0, false, 1, 250⟩] [] [] []
      ⟨1, true, 0, 0⟩ ⟨0, false, 1, 250⟩ [] initAcc 1
      rfl rfl rfl rfl rfl (by simp) rfl (by simp [sumProbs])
      [⟨0, 250, [], 1⟩] hout
  exact ⟨[⟨0, 250, [], 1⟩], tail, hout, htail⟩

/-- C5: a decision sequence ending in a run of speech decisions with no
closing non-speech decision emits nothing for that trailing run — the
output is exactly what the prefix alone had emitted, regardless of the
run's duration. -/
theorem trailing_open_run_never_emitted (o : VADOptions) (vr : List VADResult)
    (ad : List ℚ) (A run : List VADResult) (accA : ExtractAcc)
    (hvr : vr = A ++ run)
    (hrun : ∀ x ∈ run, x.isSpeech = true)
    (hA : extractLoop o vr ad A initAcc = some accA) :
    extractSpeechSegments o vr ad = some accA.segments := by
  subst hvr
  unfold extractSpeechSegments
  rw [extractLoop_append, hA]
  simp only [Option.some_bind]
  obtain ⟨acc2, h1, h2⟩ := extractLoop_allSpeech o (A ++ run) ad run accA hrun
  rw [h1]
  simp [h2]

/-- Witness for C5: one trailing speech decision, of arbitrary length
run, yields no segments. -/
theorem trailing_open_run_never_emitted_witness :
    extractSpeechSegments ⟨16000, 1536, 1, 250, 2000⟩
      [⟨1, true, 0, 0⟩] [] = some initAcc.segments :=
  trailing_open_run_never_emitted ⟨16000, 1536, 1, 250, 2000⟩
    [⟨1, true, 0, 0⟩] [] [] [⟨1, true, 0, 0⟩] initAcc rfl (by simp) rfl

/-- C10: `extractSpeechSegments` indexes the input list with each
decision's `frame` field. When every decision's frame indexes back to
itself (as when frames equal array positions) the extraction never fails,
and a kept segment's confidence is the arithmetic mean of its member
decisions' probabilities; but a list whose decisions carry frame indices
at or beyond the list length makes the confidence computation fail. -/
theorem frame_indexing_contract (o : VADOptions) :
    (∀ (vr : List VADResult) (ad : List ℚ),
      (∀ x ∈ vr, vr.get? x.frame = some x) →
      ∃ segs, extractSpeechSegments o vr ad = some segs) ∧
    (∀ (vr : List VADResult) (ad : List ℚ) (A B : List VADResult)
        (d closer : VADResult) (run : List VADResult) (accA : ExtractAcc),
      vr = A ++ ((d :: run) ++ closer :: B) →
      (∀ x ∈ vr, vr.get? x.frame = some x) →
      extractLoop o vr ad A initAcc = some accA →
      accA.segmentStart = none → accA.speechFrames = [] →
      d.isSpeech = true → (∀ x ∈ run, x.isSpeech = true) →
      closer.isSpeech = false →
      ∀ segs, extractSpeechSegments o vr ad = some segs →
        ∃ tail, segs = accA.segments ++
          (if closer.timestamp - d.timestamp ≥ o.minSpeechDurationMs then
            [⟨d.timestamp, closer.timestamp,
              jsSlice ad ⌊d.timestamp / 1000 * o.sampleRate⌋
                ⌊closer.timestamp / 1000 * o.sampleRate⌋,
              ((d :: run).map (fun x => x.probability)).sum
                / (((d :: run).length : ℕ) : ℚ)⟩]
           else []) ++ tail) ∧
    extractSpeechSegments ⟨16000, 1536, 1, 250, 2000⟩
      [⟨1, true, 2, 0⟩, ⟨0, false, 3, 250⟩] [] = none := by
  refine ⟨?_, ?_, ?_⟩
  · intro vr ad hIdx
    unfold extractSpeechSegments
    obtain ⟨acc2, h⟩ := extractLoop_isSome o vr ad vr initAcc
      (fun x hx => (List.get?_eq_some.mp (hIdx x hx)).1)
      (fun f hf => absurd hf (List.not_mem_nil f))
    exact ⟨acc2.segments, by rw [h]; rfl⟩
  · intro vr ad A B d closer run accA hvr hIdx hA hopen hfr hd hrun hcl
    have hmem : ∀ x ∈ (d :: run), vr.get? x.frame = some x := by
      intro x hx
      refine hIdx x ?_
      rw [hvr]
      exact List.mem_append_right A (List.mem_append_left _ hx)
    have hsum := sumProbs_members vr (d :: run) 0 hmem
    subst hvr
    intro segs hsegs
    obtain ⟨tail, htail⟩ := extract_run_core o ad A B d closer run accA
      (0 + ((d :: run).map (fun x => x.probability)).sum)
      hA hopen hfr hd hrun hcl hsum segs hsegs
    refine ⟨tail, ?_⟩
    rw [htail]
    simp only [zero_add]
  · have hg : sumProbs
        ([⟨1, true, 2, 0⟩, ⟨0, false, 3, 250⟩] : List VADResult) [2] 0
        = none := rfl
    simp [extractSpeechSegments, extractLoop, extractStep, initAcc, hg]

/-- Witness for C10: a well-formed two-decision list extracts
successfully with the exact mean confidence, and the out-of-bounds list
fails. -/
theorem frame_indexing_contract_witness :
    (∃ segs, extractSpeechSegments ⟨16000, 1536, 1, 250, 2000⟩
        [⟨1, true, 0, 0⟩, ⟨0, false, 1, 250⟩] [] = some segs) ∧
    (∃ segs tail, extractSpeechSegments ⟨16000, 1536, 1, 250, 2000⟩
        [⟨1, true, 0, 0⟩, ⟨0, false, 1, 250⟩] [] = some segs ∧
      segs = initAcc.segments ++
        (if (250 : ℚ) - 0 ≥ (250 : ℚ) then
          [⟨0, 250, jsSlice [] ⌊(0 : ℚ) / 1000 * (16000 : ℚ)⌋
              ⌊(250 : ℚ) / 1000 * (16000 : ℚ)⌋,
            (([⟨1, true, 0, 0⟩] : List VADResult).map (fun x => x.probability)).sum
              / ((([⟨1, true, 0, 0⟩] : List VADResult).length : ℕ) : ℚ)⟩]
         else []) ++ tail) ∧
    extractSpeechSegments ⟨16000, 1536, 1, 250, 2000⟩
      [⟨1, true, 2, 0⟩, ⟨0, false, 3, 250⟩] [] = none := by
  have hout : extractSpeechSegments ⟨16000, 1536, 1, 250, 2000⟩
      [⟨1, true, 0, 0⟩, ⟨0, false, 1, 250⟩] [] =
      some [⟨0, 250, [], 1⟩] := by
    simp [extractSpeechSegments, extractLoop, extractStep, sumProbs, initAcc, jsSlice]
  refine ⟨⟨[⟨0, 250, [], 1⟩], hout⟩, ?_, (frame_indexing_contract ⟨16000, 1536, 1, 250, 2000⟩).2.2⟩
  obtain ⟨tail, htail⟩ :=
    (frame_indexing_contract ⟨16000, 1536, 1, 250, 2000⟩).2.1
      [⟨1, true, 0, 0⟩, ⟨0, false, 1, 250⟩] [] [] []
      ⟨1, true, 0, 0⟩ ⟨0, false, 1, 250⟩ [] initAcc
      rfl (by decide) rfl rfl rfl rfl (by simp) rfl
      [⟨0, 250, [], 1⟩] hout
  exact ⟨[⟨0, 250, [], 1⟩], tail, hout, htail⟩

end AvrVad
